import Mathlib

/-!
# datagen: synthetic row generator

A shallow embedding of `main.go` (package `main` of `tastyporkchop/datagen`).

* Go's process-global `math/rand` source is the explicit state `Rand`: an arbitrary
  stream of raw outputs and a cursor.  Every library call (`Int31`, `Int63`, `Int31n`,
  `Int63n`) consumes the next raw output and reduces it into the range the library
  documents, so every value of the range can be drawn and no other.
* Go's `interface{}` cell values are the sum type `Value`.
* Go maps are association lists with at most one entry per key (`GoMap`).
* `log.Printf` / `log.Print` append a line to `Proc.log`; `ofile.Write` appends to `Proc.out`.
* A Go panic is `none`.
-/

namespace Datagen

/-! ## Data model -/

/-- Go `type Parameter struct`. -/
structure Parameter where
  Name : String
  Typ : String
  DBType : String
deriving DecidableEq, Repr

/-- Go `type Field struct`; `Typ` is the Go field `Type`. -/
structure Field where
  ColName : String
  Typ : String
  Nullable : String
deriving DecidableEq, Repr

/-- Go `type Report struct`. -/
structure Report where
  Name : String
  SqlFile : String
  Parameters : List Parameter
  Fields : List Field
deriving DecidableEq, Repr

/-- The dynamic values a generated cell (`interface{}`) can hold.  `unsupported` stands for
any Go value that `encoding/json` refuses to encode (a channel, a function, ...). -/
inductive Value where
  | str (s : String)
  | int32 (n : Int)
  | int64 (n : Int)
  | bool (b : Bool)
  | unsupported
deriving DecidableEq, Repr

/-! ## The pseudo-random source -/

/-- The shared `math/rand` source: a stream of raw outputs and the number already consumed. -/
structure Rand where
  src : Nat → Nat
  pos : Nat

/-- Consume one raw output. -/
def Rand.next (r : Rand) : Nat × Rand :=
  (r.src r.pos, { r with pos := r.pos + 1 })

/-- Go `rand.Int31()`: a non-negative 31-bit integer as an `int32`. -/
def Rand.Int31 (r : Rand) : Int × Rand :=
  (((r.next.1 % 2 ^ 31 : Nat) : Int), r.next.2)

/-- Go `rand.Int63()`: a non-negative 63-bit integer as an `int64`. -/
def Rand.Int63 (r : Rand) : Int × Rand :=
  (((r.next.1 % 2 ^ 63 : Nat) : Int), r.next.2)

/-- Go `rand.Int31n(n)`: a value in `[0, n)`; panics when `n <= 0`. -/
def Rand.Int31n (n : Int) (r : Rand) : Option (Int × Rand) :=
  if n ≤ 0 then none else some (((r.next.1 % n.toNat : Nat) : Int), r.next.2)

/-- Go `rand.Int63n(n)`: a value in `[0, n)`; panics when `n <= 0`. -/
def Rand.Int63n (n : Int) (r : Rand) : Option (Int × Rand) :=
  if n ≤ 0 then none else some (((r.next.1 % n.toNat : Nat) : Int), r.next.2)

/-! ## Generators -/

/-- Go `type Generator func() interface{}`, with the random source threaded through. -/
abbrev Generator := Rand → Option (Value × Rand)

/-- Go `NoOpGenerator`. -/
def NoOpGenerator : Generator := fun r =>
  some (Value.str "", r)

/-- Go `IntGenerator`: `rand.Int31()`. -/
def IntGenerator : Generator := fun r =>
  some (Value.int32 r.Int31.1, r.Int31.2)

/-- Go `LongGenerator`: `rand.Int63()`. -/
def LongGenerator : Generator := fun r =>
  some (Value.int64 r.Int63.1, r.Int63.2)

/-- Go `DecimalGenerator`: `rand.Int63() / 100` (Go's truncating integer division). -/
def DecimalGenerator : Generator := fun r =>
  some (Value.int64 (Int.tdiv r.Int63.1 100), r.Int63.2)

/-- Go `BoolGenerator`: `rand.Int31()%2 == 0` (Go's truncated remainder). -/
def BoolGenerator : Generator := fun r =>
  some (Value.bool (decide (Int.tmod r.Int31.1 2 = 0)), r.Int31.2)

/-- Go `const ALPHABET`. -/
def ALPHABET : String :=
  "0123456789ABCDEFGHIJKLMNOPQRSTUVWXYZabcdefghijklmnopqrstuvwxyz"

/-- Go `const ALPHABETLEN = len(ALPHABET)` (the alphabet is ASCII, one byte per character). -/
def ALPHABETLEN : Int := (ALPHABET.length : Int)

/-- Go string indexing `s[i]` on an ASCII string; out of range is a panic. -/
def byteAt (s : String) (i : Int) : Option Char :=
  if 0 ≤ i then s.data.get? i.toNat else none

/-- The body of the loop `for i = 0; i < length; i++` in `StringGenerator.Generate`, by the
number of iterations still to run (`length - i`); `b` is the buffer written so far. -/
def StringGenerator.fill : Nat → List Char → Rand → Option (List Char × Rand)
  | 0, b, r => some (b, r)
  | n + 1, b, r =>
    match r.Int31n ALPHABETLEN with
    | none => none
    | some (k, r1) =>
      match byteAt ALPHABET k with
      | none => none
      | some c => StringGenerator.fill n (b ++ [c]) r1

/-- Go `(*StringGenerator).Generate`. -/
def StringGenerator.Generate : Generator := fun r =>
  match r.Int31n 10 with
  | none => none
  | some (d, r1) =>
    let length : Int := d + 10 + 1
    match StringGenerator.fill length.toNat [] r1 with
    | none => none
    | some (b, r2) => some (Value.str (String.mk b), r2)

/-! ## Time formatting (Go `time.Unix(r, 0).Format("2006-01-02T15:04:05")`) -/

/-- Go `time.appendInt`: `x` in decimal, zero-padded to at least `width` digits, with a
leading minus sign when negative. -/
def appendInt (x : Int) (width : Nat) : List Char :=
  let u := x.natAbs
  let ds := Nat.toDigits 10 u
  (if x < 0 then ['-'] else []) ++ List.replicate (width - ds.length) '0' ++ ds

/-- Civil year, month and day of a day count relative to 1970-01-01 (proleptic Gregorian). -/
def civilFromDays (days : Int) : Int × Int × Int :=
  let z := days + 719468
  let era := z / 146097
  let doe := z - era * 146097
  let yoe := (doe - doe / 1460 + doe / 36524 - doe / 146096) / 365
  let y := yoe + era * 400
  let doy := doe - (365 * yoe + yoe / 4 - yoe / 100)
  let mp := (5 * doy + 2) / 153
  let d := doy - (153 * mp + 2) / 5 + 1
  let m := if mp < 10 then mp + 3 else mp - 9
  (if m ≤ 2 then y + 1 else y, m, d)

/-- Go `time.Unix(sec, 0).Format("2006-01-02T15:04:05")`.  `loc` is the local time zone
(`time.Local`): the offset east of UTC, in seconds, in force at a given Unix time. -/
def timeFormat (loc : Int → Int) (sec : Int) : String :=
  let t := sec + loc sec
  let days := t / 86400
  let rem := t % 86400
  let ymd := civilFromDays days
  String.mk (appendInt ymd.1 4 ++ '-' :: appendInt ymd.2.1 2 ++ '-' :: appendInt ymd.2.2 2
    ++ 'T' :: appendInt (rem / 3600) 2 ++ ':' :: appendInt (rem % 3600 / 60) 2
    ++ ':' :: appendInt (rem % 60) 2)

/-- Go `type DateTimeGenerator struct`. -/
structure DateTimeGenerator where
  MinimumOcurrance : Int

/-- Go `(*DateTimeGenerator).Generate`. -/
def DateTimeGenerator.Generate (loc : Int → Int) (dg : DateTimeGenerator) : Generator := fun rng =>
  match rng.Int63n 10000000000 with
  | none => none
  | some (r, rng1) =>
    if dg.MinimumOcurrance ≠ 0 ∧ Int.tmod r dg.MinimumOcurrance = 0 then
      some (Value.str "0001-01-01T00:00:00", rng1)
    else
      some (Value.str (timeFormat loc r), rng1)

/-! ## Go maps -/

/-- A Go `map[string]α`: an association list holding at most one entry per key. -/
abbrev GoMap (α : Type) := List (String × α)

/-- Go `v, ok := m[k]`. -/
def mapGet {α : Type} : GoMap α → String → Option α
  | [], _ => none
  | (k1, v1) :: m, k => if k1 = k then some v1 else mapGet m k

/-- Go `m[k] = v`: overwrite the entry of `k` when there is one, add one otherwise. -/
def mapSet {α : Type} : GoMap α → String → α → GoMap α
  | [], k, v => [(k, v)]
  | (k1, v1) :: m, k, v => if k1 = k then (k1, v) :: m else (k1, v1) :: mapSet m k v

/-- The keys of a Go map. -/
def mapKeys {α : Type} (m : GoMap α) : List String := m.map Prod.fst

/-- A generated data row, Go `map[string]interface{}`. -/
abbrev Row := GoMap Value

/-! ## Serialization (Go `json.Marshal` on a `map[string]interface{}`) -/

/-- How `encoding/json` writes one character of a string (HTML escaping on, as in
`json.Marshal`). -/
def jsonEscape (c : Char) : List Char :=
  if c = '"' then ['\\', '"']
  else if c = '\\' then ['\\', '\\']
  else if c = '\n' then ['\\', 'n']
  else if c = '\r' then ['\\', 'r']
  else if c = '\t' then ['\\', 't']
  else if c.toNat < 32 ∨ c = '<' ∨ c = '>' ∨ c = '&' then
    ['\\', 'u', '0', '0', Nat.digitChar (c.toNat / 16), Nat.digitChar (c.toNat % 16)]
  else if c.toNat = 8232 ∨ c.toNat = 8233 then
    ['\\', 'u', '2', '0', '2', Nat.digitChar (c.toNat % 16)]
  else [c]

/-- A JSON string literal. -/
def jsonString (s : String) : String :=
  String.mk ('"' :: (s.data.flatMap jsonEscape) ++ ['"'])

/-- The JSON text of one cell; `encoding/json` rejects unsupported values. -/
def jsonValue : Value → Except String String
  | Value.str s => Except.ok (jsonString s)
  | Value.int32 n => Except.ok (toString n)
  | Value.int64 n => Except.ok (toString n)
  | Value.bool b => Except.ok (if b then "true" else "false")
  | Value.unsupported => Except.error "json: unsupported type"

/-- Insert an entry into a list of entries sorted by key. -/
def insertEntry (e : String × Value) : List (String × Value) → List (String × Value)
  | [] => [e]
  | e1 :: es => if e.1.data < e1.1.data then e :: e1 :: es else e1 :: insertEntry e es

/-- The entries of a row sorted by key, the order in which `encoding/json` writes a map. -/
def sortEntries : List (String × Value) → List (String × Value)
  | [] => []
  | e :: es => insertEntry e (sortEntries es)

/-- The members `"key":value` of an object, in the given order. -/
def jsonMembers : List (String × Value) → Except String (List String)
  | [] => Except.ok []
  | (k, v) :: es =>
    match jsonValue v with
    | Except.error err => Except.error err
    | Except.ok sv =>
      match jsonMembers es with
      | Except.error err => Except.error err
      | Except.ok ms => Except.ok ((jsonString k ++ ":" ++ sv) :: ms)

/-- Go `json.Marshal(dr)` for a data row. -/
def jsonMarshal (dr : Row) : Except String String :=
  match jsonMembers (sortEntries dr) with
  | Except.error err => Except.error err
  | Except.ok ms => Except.ok ("\x7b" ++ ",".intercalate ms ++ "\x7d")

/-! ## Row emission -/

/-- What the process has done so far: the state of the random source, the lines logged
and the bytes written to `ofile`. -/
structure Proc where
  rand : Rand
  log : List String
  out : String

/-- The first loop of `processReport`, `for i := 0; i < len(rep.Fields); i++`, over the fields
still to visit: assign a generator to each field's column, logging unknown types. -/
def assignGenerators (loc : Int → Int) :
    List Field → GoMap Generator → List String → GoMap Generator × List String
  | [], gm, log => (gm, log)
  | field :: rest, gm, log =>
    match field.Typ with
    | "string" => assignGenerators loc rest (mapSet gm field.ColName StringGenerator.Generate) log
    | "int" => assignGenerators loc rest (mapSet gm field.ColName IntGenerator) log
    | "long" => assignGenerators loc rest (mapSet gm field.ColName LongGenerator) log
    | "decimal" => assignGenerators loc rest (mapSet gm field.ColName DecimalGenerator) log
    | "datetime" =>
      assignGenerators loc rest
        (mapSet gm field.ColName (DateTimeGenerator.Generate loc { MinimumOcurrance := 100 })) log
    | "bool" => assignGenerators loc rest (mapSet gm field.ColName BoolGenerator) log
    | _ =>
      assignGenerators loc rest (mapSet gm field.ColName NoOpGenerator)
        (log ++ ["Warning: no operator for type:" ++ field.Typ])

/-- The inner loop `for j := 0; j < len(rep.Fields); j++` over the fields still to visit:
call the generator of each field's column, when there is one, and store the value. -/
def genRow (gm : GoMap Generator) : List Field → Row → Rand → Option (Row × Rand)
  | [], dr, r => some (dr, r)
  | field :: rest, dr, r =>
    match mapGet gm field.ColName with
    | none => genRow gm rest dr r
    | some g =>
      match g r with
      | none => none
      | some (v, r1) => genRow gm rest (mapSet dr field.ColName v) r1

/-- The loop `for i := 0; i < order; i++`, by the number of rows still to generate. -/
def rowLoop (gm : GoMap Generator) (fields : List Field) : Nat → Proc → Option Proc
  | 0, st => some st
  | n + 1, st =>
    match genRow gm fields [] st.rand with
    | none => none
    | some (dr, r1) =>
      match jsonMarshal dr with
      | Except.error err => rowLoop gm fields n { st with rand := r1, log := st.log ++ [err] }
      | Except.ok rowstr =>
        rowLoop gm fields n { st with rand := r1, out := st.out ++ rowstr ++ "\n" }

/-- Go `processReport(rep, order, ofile)`. -/
def processReport (loc : Int → Int) (rep : Report) (order : Int) (st : Proc) : Option Proc :=
  let st1 : Proc := { st with log := st.log ++ ["Report Name:" ++ rep.Name] }
  let gml := assignGenerators loc rep.Fields [] st1.log
  let st2 : Proc := { st1 with log := gml.2 }
  let st3 : Proc := { st2 with out := st2.out ++ "\x7b\n" }
  let st4 : Proc := { st3 with out := st3.out ++ ("\"" ++ rep.Name ++ "s\":[\n") }
  match rowLoop gml.1 rep.Fields order.toNat st4 with
  | none => none
  | some st5 => some { st5 with out := st5.out ++ "]\n\x7d\n" }

/-- The data rows built by the successive iterations of the row loop. -/
def rowsOf (gm : GoMap Generator) (fields : List Field) : Nat → Rand → List Row
  | 0, _ => []
  | n + 1, r =>
    match genRow gm fields [] r with
    | none => []
    | some (dr, r1) => dr :: rowsOf gm fields n r1

/-! ## Vocabulary of the specification -/

/-- The field types the type switch of `processReport` recognises. -/
def knownType (t : String) : Bool :=
  t = "string" || t = "int" || t = "long" || t = "decimal" || t = "datetime" || t = "bool"

/-- The generator the type switch of `processReport` assigns to a field of type `t`. -/
def generatorFor (loc : Int → Int) (t : String) : Generator :=
  match t with
  | "string" => StringGenerator.Generate
  | "int" => IntGenerator
  | "long" => LongGenerator
  | "decimal" => DecimalGenerator
  | "datetime" => DateTimeGenerator.Generate loc { MinimumOcurrance := 100 }
  | "bool" => BoolGenerator
  | _ => NoOpGenerator

/-- The warning logged for an unrecognised field type. -/
def warningOf (t : String) : String := "Warning: no operator for type:" ++ t

/-- Whether a log line is an unrecognised-type warning. -/
def isWarning (s : String) : Bool :=
  List.isPrefixOf "Warning: no operator for type:".data s.data

/-- The declared column names of a list of fields, in declaration order. -/
def columnNames (fields : List Field) : List String := fields.map Field.ColName

/-- The type of the last field declared with column name `cn`, when there is one. -/
def lastType : List Field → String → Option String
  | [], _ => none
  | field :: rest, cn =>
    match lastType rest cn with
    | some t => some t
    | none => if field.ColName = cn then some field.Typ else none

/-- The text `json.Marshal` gives for a row (empty when it fails). -/
def serialized (dr : Row) : String :=
  match jsonMarshal dr with
  | Except.ok s => s
  | Except.error _ => ""

/-- Every string of the list followed by a newline, concatenated. -/
def rowLines : List String → String
  | [] => ""
  | s :: ss => s ++ "\n" ++ rowLines ss

/-- Run a sequence of generator invocations, keeping only the state of the random source. -/
def runAll : List Generator → Rand → Option Rand
  | [], r => some r
  | g :: gs, r =>
    match g r with
    | none => none
    | some (_, r1) => runAll gs r1

/-- The end-to-end input of the specification: report `Widget` with fields `id:int`,
`label:string`, `flag:bool`, `mystery:enum` (keys absent from the JSON take zero values). -/
def widget : Report :=
  { Name := "Widget", SqlFile := "", Parameters := [],
    Fields := [⟨"id", "int", ""⟩, ⟨"label", "string", ""⟩, ⟨"flag", "bool", ""⟩,
      ⟨"mystery", "enum", ""⟩] }

/-! ## The numeric generators -/

theorem Int31_range (r : Rand) : 0 ≤ r.Int31.1 ∧ r.Int31.1 ≤ 2 ^ 31 - 1 := by
  have h : r.next.1 % 2 ^ 31 < 2 ^ 31 := Nat.mod_lt _ (by norm_num)
  simp only [Rand.Int31]
  omega

theorem Int63_range (r : Rand) : 0 ≤ r.Int63.1 ∧ r.Int63.1 ≤ 2 ^ 63 - 1 := by
  have h : r.next.1 % 2 ^ 63 < 2 ^ 63 := Nat.mod_lt _ (by norm_num)
  simp only [Rand.Int63]
  omega

/-- C8: for every state of the random source, `IntGenerator` returns an `int32` in
`[0, 2^31 - 1]`, `LongGenerator` an `int64` in `[0, 2^63 - 1]`, and `DecimalGenerator` the
drawn non-negative 63-bit value divided by 100 and rounded down, an `int64` in
`[0, 92233720368547758]`. -/
theorem numeric_generators_in_range (r : Rand) :
    (∃ n : Int, IntGenerator r = some (Value.int32 n, r.Int31.2) ∧ 0 ≤ n ∧ n ≤ 2 ^ 31 - 1) ∧
    (∃ n : Int, LongGenerator r = some (Value.int64 n, r.Int63.2) ∧ 0 ≤ n ∧ n ≤ 2 ^ 63 - 1) ∧
    (∃ d : Int, d = r.Int63.1 ∧ 0 ≤ d ∧ d ≤ 2 ^ 63 - 1 ∧
      DecimalGenerator r = some (Value.int64 (d / 100), r.Int63.2) ∧
      0 ≤ d / 100 ∧ d / 100 ≤ 92233720368547758 ∧
      100 * (d / 100) ≤ d ∧ d < 100 * (d / 100) + 100) := by
  have h31 := Int31_range r
  have h63 := Int63_range r
  refine ⟨⟨r.Int31.1, rfl, h31.1, h31.2⟩, ⟨r.Int63.1, rfl, h63.1, h63.2⟩,
    ⟨r.Int63.1, rfl, h63.1, h63.2, ?_, ?_, ?_, ?_, ?_⟩⟩
  · simp only [DecimalGenerator]
    rw [Int.tdiv_eq_ediv h63.1 (by norm_num)]
  · omega
  · omega
  · omega
  · omega

theorem card_range_filter_mod (m k : Nat) (hm : 0 < m) :
    ((Finset.range (m * k)).filter (fun v => v % m = 0)).card = k := by
  rw [← Nat.count_eq_card_filter_range]
  have h := Nat.count_modEq_card (m * k) hm 0
  simp only [Nat.ModEq, Nat.zero_mod, Nat.mul_mod_right, lt_self_iff_false, if_false,
    Nat.add_zero, Nat.mul_div_cancel_left k hm] at h
  exact h

theorem card_range_filter_mod_of_eq (n m k : Nat) (hm : 0 < m) (hn : n = m * k) :
    ((Finset.range n).filter (fun v => v % m = 0)).card = k := by
  subst hn
  exact card_range_filter_mod m k hm

theorem card_range_filter_not_mod_of_eq (n m k : Nat) (hm : 0 < m) (hn : n = m * k) :
    ((Finset.range n).filter (fun v => ¬ (v % m = 0))).card = n - k := by
  have hsum := Finset.filter_card_add_filter_neg_card_eq_card (s := Finset.range n)
    (fun v => v % m = 0)
  rw [card_range_filter_mod_of_eq n m k hm hn, Finset.card_range] at hsum
  omega

theorem civil_year_range (days : Int) (h0 : -1 ≤ days) (h1 : days ≤ 115742) :
    1600 ≤ (civilFromDays days).1 ∧ (civilFromDays days).1 ≤ 2400 := by
  simp only [civilFromDays]
  split <;> split <;> omega

theorem toDigitsCore_four (f u : Nat) (h0 : 1000 ≤ u) (h1 : u < 10000) :
    Nat.toDigitsCore 10 (f + 1 + 1 + 1 + 1) u [] = [Nat.digitChar (u / 1000),
      Nat.digitChar (u / 100 % 10), Nat.digitChar (u / 10 % 10), Nat.digitChar (u % 10)] := by
  have e1 : u / 10 ≠ 0 := by omega
  have e2 : u / 10 / 10 ≠ 0 := by omega
  have e3 : u / 10 / 10 / 10 ≠ 0 := by omega
  have e4 : u / 10 / 10 / 10 / 10 = 0 := by omega
  have a1 : u / 10 / 10 / 10 % 10 = u / 1000 := by omega
  have a2 : u / 10 / 10 % 10 = u / 100 % 10 := by omega
  simp only [Nat.toDigitsCore, e1, e2, e3, e4, if_true, if_false, a1, a2]

theorem toDigits_four (u : Nat) (h0 : 1000 ≤ u) (h1 : u < 10000) :
    Nat.toDigits 10 u = [Nat.digitChar (u / 1000), Nat.digitChar (u / 100 % 10),
      Nat.digitChar (u / 10 % 10), Nat.digitChar (u % 10)] := by
  have h := toDigitsCore_four (u - 3) u h0 h1
  have e : u - 3 + 1 + 1 + 1 + 1 = u + 1 := by omega
  rw [e] at h
  exact h

theorem appendInt_year_head (y : Int) (h0 : 1600 ≤ y) (h1 : y ≤ 2400) (rest : List Char) :
    (appendInt y 4 ++ rest).head? = some '1' ∨ (appendInt y 4 ++ rest).head? = some '2' := by
  obtain ⟨u, rfl⟩ : ∃ u : Nat, y = (u : Int) := ⟨y.toNat, by omega⟩
  have hu0 : 1000 ≤ u := by omega
  have hu1 : u < 10000 := by omega
  have hneg : ¬ ((u : Int) < 0) := by omega
  simp only [appendInt, Int.natAbs_ofNat, hneg, if_false, toDigits_four u hu0 hu1,
    List.length_cons, List.length_nil, List.nil_append]
  have hq : u / 1000 = 1 ∨ u / 1000 = 2 := by omega
  rcases hq with hq | hq <;> simp [hq] <;> decide

theorem timeFormat_head (loc : Int → Int) (r : Int) (hlo : -86400 ≤ loc r)
    (hhi : loc r ≤ 86400) (h0 : 0 ≤ r) (h1 : r < 10000000000) :
    (timeFormat loc r).data.head? = some '1' ∨ (timeFormat loc r).data.head? = some '2' := by
  have hy := civil_year_range ((r + loc r) / 86400) (by omega) (by omega)
  simp only [timeFormat, List.append_assoc]
  exact appendInt_year_head _ hy.1 hy.2 _

theorem timeFormat_ne_sentinel (loc : Int → Int) (r : Int) (hlo : -86400 ≤ loc r)
    (hhi : loc r ≤ 86400) (h0 : 0 ≤ r) (h1 : r < 10000000000) :
    timeFormat loc r ≠ "0001-01-01T00:00:00" := by
  intro h
  have hd := timeFormat_head loc r hlo hhi h0 h1
  rw [h] at hd
  revert hd
  decide

/-! ## The string generator -/

theorem Int31n_pos (n : Int) (hn : 0 < n) (r : Rand) :
    r.Int31n n = some (((r.src r.pos % n.toNat : Nat) : Int), r.next.2) := by
  have h : ¬ n ≤ 0 := by omega
  simp [Rand.Int31n, h, Rand.next]

theorem Int63n_pos (n : Int) (hn : 0 < n) (r : Rand) :
    r.Int63n n = some (((r.src r.pos % n.toNat : Nat) : Int), r.next.2) := by
  have h : ¬ n ≤ 0 := by omega
  simp [Rand.Int63n, h, Rand.next]

theorem byteAt_alphabet (k : Nat) (hk : k < 62) :
    ∃ c, byteAt ALPHABET (k : Int) = some c ∧ c ∈ ALPHABET.data := by
  have hlen : k < ALPHABET.data.length := by
    have : ALPHABET.data.length = 62 := by decide
    omega
  refine ⟨ALPHABET.data.get ⟨k, hlen⟩, ?_, List.get_mem _ _ _⟩
  have h0 : (0 : Int) ≤ (k : Int) := by omega
  simp only [byteAt, h0, if_true, Int.toNat_ofNat]
  exact List.get?_eq_get hlen

theorem fill_spec (n : Nat) : ∀ (b : List Char) (r : Rand),
    ∃ cs r1, StringGenerator.fill n b r = some (b ++ cs, r1) ∧ cs.length = n ∧
      ∀ c ∈ cs, c ∈ ALPHABET.data := by
  induction n with
  | zero => intro b r; exact ⟨[], r, by simp [StringGenerator.fill], rfl, by simp⟩
  | succ n ih =>
    intro b r
    have hlt : r.src r.pos % 62 < 62 := Nat.mod_lt _ (by norm_num)
    obtain ⟨c, hc, hmem⟩ := byteAt_alphabet (r.src r.pos % 62) hlt
    obtain ⟨cs, r1, hfill, hlen, hall⟩ := ih (b ++ [c]) r.next.2
    have hdraw : r.Int31n ALPHABETLEN = some (((r.src r.pos % 62 : Nat) : Int), r.next.2) :=
      Int31n_pos ALPHABETLEN (by decide) r
    refine ⟨c :: cs, r1, ?_, by simp [hlen], ?_⟩
    · simp only [StringGenerator.fill, hdraw, hc, hfill, List.append_assoc, List.singleton_append]
    · intro x hx
      rcases List.mem_cons.mp hx with rfl | hx
      · exact hmem
      · exact hall x hx

/-- C3: for every state of the random source, `StringGenerator.Generate` returns a string of
length 11 plus its first draw `d` (a value in 0..9), hence of length 11 to 20, each length
coming from exactly one value of `d`; every character of the string is one of the 62 distinct
symbols `0-9A-Za-z` of `ALPHABET`; every index drawn for `ALPHABET` is in bounds, so the
generator never panics. -/
theorem string_generator_shape (r : Rand) :
    (∃ (d : Nat) (s : String) (r1 : Rand),
      r.Int31n 10 = some ((d : Int), r.next.2) ∧ d ≤ 9 ∧
      StringGenerator.Generate r = some (Value.str s, r1) ∧
      s.length = 11 + d ∧ 11 ≤ s.length ∧ s.length ≤ 20 ∧
      ∀ c ∈ s.data, c ∈ ALPHABET.data) ∧
    (∀ len : Nat, 11 ≤ len → len ≤ 20 → ∃! d : Nat, d ≤ 9 ∧ 11 + d = len) ∧
    (∃ k : Int, r.Int31n ALPHABETLEN = some (k, r.next.2) ∧ 0 ≤ k ∧ k < ALPHABETLEN ∧
      ∃ c, byteAt ALPHABET k = some c) ∧
    ALPHABET.length = 62 ∧ ALPHABET.data.Nodup ∧
    (∀ c ∈ ALPHABET.data, c.isAlphanum = true) := by
  refine ⟨?_, ?_, ?_, by decide, by decide, by decide⟩
  · have hd : r.src r.pos % 10 < 10 := Nat.mod_lt _ (by norm_num)
    have hdraw := Int31n_pos 10 (by norm_num) r
    obtain ⟨cs, r1, hfill, hlen, hall⟩ := fill_spec (11 + r.src r.pos % 10) [] r.next.2
    have hn : ((((r.src r.pos % (10 : Int).toNat : Nat) : Int) + 10 + 1).toNat)
        = 11 + r.src r.pos % 10 := by
      have : (10 : Int).toNat = 10 := rfl
      rw [this]
      omega
    refine ⟨r.src r.pos % 10, String.mk cs, r1, hdraw, by omega, ?_, ?_, ?_, ?_, ?_⟩
    · simp only [StringGenerator.Generate, hdraw, hn, hfill, List.nil_append]
    · simp [String.length, hlen]
    · simp only [String.length, hlen]; omega
    · simp only [String.length, hlen]; omega
    · exact hall
  · intro len h1 h2
    refine ⟨len - 11, ⟨by omega, by omega⟩, ?_⟩
    rintro d ⟨_, hd⟩
    omega
  · have hlt : r.src r.pos % 62 < 62 := Nat.mod_lt _ (by norm_num)
    obtain ⟨c, hc, _⟩ := byteAt_alphabet (r.src r.pos % 62) hlt
    have hlen : ALPHABETLEN = 62 := by decide
    refine ⟨((r.src r.pos % 62 : Nat) : Int), Int31n_pos ALPHABETLEN (by decide) r, by omega,
      by omega, c, hc⟩

/-! ## The datetime generator -/

theorem datetime_generate (loc : Int → Int) (rng : Rand) :
    DateTimeGenerator.Generate loc { MinimumOcurrance := 100 } rng =
      some (Value.str (if rng.src rng.pos % 10000000000 % 100 = 0 then "0001-01-01T00:00:00"
        else timeFormat loc ((rng.src rng.pos % 10000000000 : Nat) : Int)), rng.next.2) := by
  have hdraw := Int63n_pos 10000000000 (by norm_num) rng
  have ht : (10000000000 : Int).toNat = 10000000000 := rfl
  rw [ht] at hdraw
  have hm : Int.tmod ((rng.src rng.pos % 10000000000 : Nat) : Int) 100
      = ((rng.src rng.pos % 10000000000 % 100 : Nat) : Int) := by
    rw [Int.tmod_eq_emod (by omega) (by norm_num)]
    omega
  simp only [DateTimeGenerator.Generate, hdraw, hm]
  by_cases h : rng.src rng.pos % 10000000000 % 100 = 0
  · have h2 : ((rng.src rng.pos % 10000000000 % 100 : Nat) : Int) = 0 := by omega
    have h3 : (100 : Int) ≠ 0 ∧ ((rng.src rng.pos % 10000000000 % 100 : Nat) : Int) = 0 :=
      ⟨by norm_num, h2⟩
    rw [if_pos h, if_pos h3]
  · have h3 : ¬ ((100 : Int) ≠ 0 ∧ ((rng.src rng.pos % 10000000000 % 100 : Nat) : Int) = 0) := by
      omega
    rw [if_neg h, if_neg h3]

/-- C4: with the minimum-occurrence denominator 100 that `processReport` configures, and a
local time zone whose offsets stay within a day of UTC, `DateTimeGenerator.Generate` draws
`r` in `[0, 10^10)`, returns the sentinel `"0001-01-01T00:00:00"` exactly when `r` is a
multiple of 100 and the formatted time of `r` seconds after the epoch (never the sentinel)
otherwise; exactly 100,000,000 of the 10,000,000,000 draws give the sentinel. -/
theorem datetime_sentinel_one_in_hundred (loc : Int → Int)
    (hloc : ∀ t, -86400 ≤ loc t ∧ loc t ≤ 86400) (rng : Rand) (colName nullable : String) :
    mapGet (assignGenerators loc [⟨colName, "datetime", nullable⟩] [] []).1 colName
      = some (DateTimeGenerator.Generate loc { MinimumOcurrance := 100 }) ∧
    (∃ r : Int, 0 ≤ r ∧ r < 10000000000 ∧
      rng.Int63n 10000000000 = some (r, rng.next.2) ∧
      DateTimeGenerator.Generate loc { MinimumOcurrance := 100 } rng
        = some (Value.str (if r % 100 = 0 then "0001-01-01T00:00:00" else timeFormat loc r),
            rng.next.2) ∧
      timeFormat loc r ≠ "0001-01-01T00:00:00") ∧
    (∀ v : Nat, v < 10000000000 →
      Rand.Int63n 10000000000 ⟨fun _ => v, 0⟩ = some ((v : Int), ⟨fun _ => v, 1⟩)) ∧
    ((Finset.range 10000000000).filter (fun v =>
      (DateTimeGenerator.Generate loc { MinimumOcurrance := 100 } ⟨fun _ => v, 0⟩).map Prod.fst
        = some (Value.str "0001-01-01T00:00:00"))).card = 100000000 := by
  refine ⟨by simp [assignGenerators, mapSet, mapGet], ?_, ?_, ?_⟩
  · have hlt : rng.src rng.pos % 10000000000 < 10000000000 := Nat.mod_lt _ (by norm_num)
    refine ⟨((rng.src rng.pos % 10000000000 : Nat) : Int), by omega, by omega,
      Int63n_pos 10000000000 (by norm_num) rng, ?_, ?_⟩
    · rw [datetime_generate]
      by_cases h : rng.src rng.pos % 10000000000 % 100 = 0
      · have h2 : ((rng.src rng.pos % 10000000000 : Nat) : Int) % 100 = 0 := by omega
        rw [if_pos h, if_pos h2]
      · have h2 : ¬ (((rng.src rng.pos % 10000000000 : Nat) : Int) % 100 = 0) := by omega
        rw [if_neg h, if_neg h2]
    · exact timeFormat_ne_sentinel loc _ (hloc _).1 (hloc _).2 (by omega) (by omega)
  · intro v hv
    have h := Int63n_pos 10000000000 (by norm_num) ⟨fun _ => v, 0⟩
    have ht : (10000000000 : Int).toNat = 10000000000 := rfl
    simp only [ht, Nat.mod_eq_of_lt hv] at h
    exact h
  · have hcongr : (Finset.range 10000000000).filter (fun v =>
        (DateTimeGenerator.Generate loc { MinimumOcurrance := 100 } ⟨fun _ => v, 0⟩).map Prod.fst
          = some (Value.str "0001-01-01T00:00:00"))
        = (Finset.range 10000000000).filter (fun v => v % 100 = 0) := by
      apply Finset.filter_congr
      intro v hv
      have hv : v < 10000000000 := Finset.mem_range.mp hv
      rw [datetime_generate]
      simp only [Nat.mod_eq_of_lt hv, Option.map_some']
      by_cases h : v % 100 = 0
      · simp [h]
      · have hne := timeFormat_ne_sentinel loc (v : Int) (hloc _).1 (hloc _).2 (by omega)
          (by omega)
        simp [h, hne]
    rw [hcongr]
    exact card_range_filter_mod_of_eq 10000000000 100 100000000 (by norm_num) (by norm_num)

/-- Witness of C4 at the UTC time zone and the source whose outputs are all 1700000000. -/
theorem datetime_sentinel_one_in_hundred_witness :
    (∀ t : Int, -86400 ≤ (fun _ : Int => (0 : Int)) t ∧ (fun _ : Int => (0 : Int)) t ≤ 86400) ∧
    (mapGet (assignGenerators (fun _ => 0) [⟨"when", "datetime", ""⟩] [] []).1 "when"
      = some (DateTimeGenerator.Generate (fun _ => 0) { MinimumOcurrance := 100 }) ∧
    (∃ r : Int, 0 ≤ r ∧ r < 10000000000 ∧
      Rand.Int63n 10000000000 ⟨fun _ => 1700000000, 0⟩
        = some (r, (Rand.next ⟨fun _ => 1700000000, 0⟩).2) ∧
      DateTimeGenerator.Generate (fun _ => 0) { MinimumOcurrance := 100 }
          ⟨fun _ => 1700000000, 0⟩
        = some (Value.str (if r % 100 = 0 then "0001-01-01T00:00:00"
            else timeFormat (fun _ => 0) r), (Rand.next ⟨fun _ => 1700000000, 0⟩).2) ∧
      timeFormat (fun _ => 0) r ≠ "0001-01-01T00:00:00") ∧
    (∀ v : Nat, v < 10000000000 →
      Rand.Int63n 10000000000 ⟨fun _ => v, 0⟩ = some ((v : Int), ⟨fun _ => v, 1⟩)) ∧
    ((Finset.range 10000000000).filter (fun v =>
      (DateTimeGenerator.Generate (fun _ => 0) { MinimumOcurrance := 100 }
          ⟨fun _ => v, 0⟩).map Prod.fst
        = some (Value.str "0001-01-01T00:00:00"))).card = 100000000) :=
  ⟨fun _ => ⟨by norm_num, by norm_num⟩,
    datetime_sentinel_one_in_hundred (fun _ => 0) (fun _ => ⟨by norm_num, by norm_num⟩)
      ⟨fun _ => 1700000000, 0⟩ "when" ""⟩

/-! ## The bool generator -/

/-- C9: `BoolGenerator` returns true exactly when the integer it draws is even, and of the
`2^31 = 2147483648` equally likely values of that integer exactly half, `2^30 = 1073741824`,
give true and the other `2^30` give false. -/
theorem bool_generator_fair_coin (r : Rand) :
    (∃ n : Int, n = r.Int31.1 ∧ 0 ≤ n ∧ n < 2147483648 ∧
      BoolGenerator r = some (Value.bool (decide (n % 2 = 0)), r.Int31.2)) ∧
    (∀ v : Nat, v < 2147483648 → Rand.Int31 ⟨fun _ => v, 0⟩ = ((v : Int), ⟨fun _ => v, 1⟩)) ∧
    ((Finset.range 2147483648).filter (fun v =>
      (BoolGenerator ⟨fun _ => v, 0⟩).map Prod.fst = some (Value.bool true))).card
        = 1073741824 ∧
    ((Finset.range 2147483648).filter (fun v =>
      (BoolGenerator ⟨fun _ => v, 0⟩).map Prod.fst = some (Value.bool false))).card
        = 1073741824 := by
  have hcore : ∀ q : Rand, BoolGenerator q
      = some (Value.bool (decide (q.Int31.1 % 2 = 0)), q.Int31.2) := by
    intro q
    have hq := Int31_range q
    simp only [BoolGenerator]
    rw [Int.tmod_eq_emod hq.1 (by norm_num)]
  have hdraw : ∀ v : Nat, v < 2147483648 →
      Rand.Int31 ⟨fun _ => v, 0⟩ = ((v : Int), ⟨fun _ => v, 1⟩) := by
    intro v hv
    have hm : v % 2 ^ 31 = v := by omega
    simp only [Rand.Int31, Rand.next, hm, Nat.zero_add]
  have hval : ∀ v : Nat, v < 2147483648 →
      (BoolGenerator ⟨fun _ => v, 0⟩).map Prod.fst = some (Value.bool (decide (v % 2 = 0))) := by
    intro v hv
    rw [hcore, hdraw v hv]
    have e : (((v : Int) % 2 = 0) ↔ (v % 2 = 0)) := by omega
    simp only [Option.map_some', decide_eq_decide.mpr e]
  have htrue : (Finset.range 2147483648).filter (fun v =>
      (BoolGenerator ⟨fun _ => v, 0⟩).map Prod.fst = some (Value.bool true))
      = (Finset.range 2147483648).filter (fun v => v % 2 = 0) := by
    apply Finset.filter_congr
    intro v hv
    rw [hval v (Finset.mem_range.mp hv)]
    simp
  have hfalse : (Finset.range 2147483648).filter (fun v =>
      (BoolGenerator ⟨fun _ => v, 0⟩).map Prod.fst = some (Value.bool false))
      = (Finset.range 2147483648).filter (fun v => ¬ (v % 2 = 0)) := by
    apply Finset.filter_congr
    intro v hv
    rw [hval v (Finset.mem_range.mp hv)]
    simp
  refine ⟨?_, hdraw, ?_, ?_⟩
  · have hq := Int31_range r
    exact ⟨r.Int31.1, rfl, hq.1, by omega, hcore r⟩
  · rw [htrue]
    exact card_range_filter_mod_of_eq 2147483648 2 1073741824 (by norm_num) (by norm_num)
  · rw [hfalse]
    exact card_range_filter_not_mod_of_eq 2147483648 2 1073741824 (by norm_num) (by norm_num)

/-! ## Go maps -/

theorem mapGet_mapSet {α : Type} (m : GoMap α) (k : String) (v : α) (k2 : String) :
    mapGet (mapSet m k v) k2 = if k = k2 then some v else mapGet m k2 := by
  induction m with
  | nil => simp [mapSet, mapGet]
  | cons e m ih =>
    obtain ⟨k1, v1⟩ := e
    by_cases h1 : k1 = k
    · subst h1
      by_cases h2 : k1 = k2
      · simp [mapSet, mapGet, h2]
      · simp [mapSet, mapGet, h2]
    · by_cases h2 : k1 = k2
      · subst h2
        simp [mapSet, mapGet, h1, Ne.symm h1]
      · simp [mapSet, mapGet, h1, h2, ih]

theorem mapKeys_mapSet {α : Type} (m : GoMap α) (k : String) (v : α) :
    mapKeys (mapSet m k v) = if k ∈ mapKeys m then mapKeys m else mapKeys m ++ [k] := by
  induction m with
  | nil => simp [mapSet, mapKeys]
  | cons e m ih =>
    obtain ⟨k1, v1⟩ := e
    by_cases h1 : k1 = k
    · subst h1
      simp [mapSet, mapKeys]
    · have h1b : ¬ k = k1 := fun h => h1 h.symm
      simp only [mapKeys] at ih
      by_cases hm : k ∈ List.map Prod.fst m
      · simp [mapSet, mapKeys, h1, h1b, hm, ih]
      · simp [mapSet, mapKeys, h1, h1b, hm, ih]

theorem mapGet_isSome_iff {α : Type} (m : GoMap α) (k : String) :
    (mapGet m k).isSome = true ↔ k ∈ mapKeys m := by
  induction m with
  | nil => simp [mapGet, mapKeys]
  | cons e m ih =>
    obtain ⟨k1, v1⟩ := e
    by_cases h1 : k1 = k
    · simp [mapGet, mapKeys, h1]
    · have h1b : ¬ k = k1 := fun h => h1 h.symm
      simp only [mapKeys] at ih
      simp [mapGet, mapKeys, h1, h1b, ih]

/-! ## Generator assignment -/

theorem generatorFor_unknown (loc : Int → Int) (t : String) (h : knownType t = false) :
    generatorFor loc t = NoOpGenerator := by
  simp only [knownType, Bool.or_eq_false_iff, decide_eq_false_iff_not] at h
  obtain ⟨⟨⟨⟨⟨h1, h2⟩, h3⟩, h4⟩, h5⟩, h6⟩ := h
  unfold generatorFor
  split <;> first | rfl | contradiction

theorem assignGenerators_cons (loc : Int → Int) (field : Field) (rest : List Field)
    (gm : GoMap Generator) (log : List String) :
    assignGenerators loc (field :: rest) gm log =
      assignGenerators loc rest (mapSet gm field.ColName (generatorFor loc field.Typ))
        (if knownType field.Typ then log else log ++ [warningOf field.Typ]) := by
  by_cases hk : knownType field.Typ = true
  · rw [if_pos hk]
    simp only [knownType, Bool.or_eq_true, decide_eq_true_eq] at hk
    rcases hk with ((((h | h) | h) | h) | h) | h <;>
      simp [assignGenerators, generatorFor, h]
  · have hk1 : knownType field.Typ = false := by simpa using hk
    have hk2 := hk1
    simp only [knownType, Bool.or_eq_false_iff, decide_eq_false_iff_not] at hk2
    obtain ⟨⟨⟨⟨⟨h1, h2⟩, h3⟩, h4⟩, h5⟩, h6⟩ := hk2
    rw [generatorFor_unknown loc _ hk1]
    simp only [hk1, Bool.false_eq_true, if_false, warningOf]
    rw [assignGenerators]
    split <;> first | rfl | contradiction

theorem assignGenerators_eq (loc : Int → Int) (fields : List Field) :
    ∀ (gm : GoMap Generator) (log : List String),
    assignGenerators loc fields gm log =
      (fields.foldl (fun g f => mapSet g f.ColName (generatorFor loc f.Typ)) gm,
        log ++ (fields.filter (fun f => !knownType f.Typ)).map (fun f => warningOf f.Typ)) := by
  induction fields with
  | nil => intro gm log; simp [assignGenerators]
  | cons f fs ih =>
    intro gm log
    rw [assignGenerators_cons, ih]
    by_cases hk : knownType f.Typ = true
    · simp [hk]
    · have hk1 : knownType f.Typ = false := by simpa using hk
      simp [hk1]

theorem assignGenerators_fst (loc : Int → Int) (fields : List Field) (gm : GoMap Generator)
    (log1 log2 : List String) :
    (assignGenerators loc fields gm log1).1 = (assignGenerators loc fields gm log2).1 := by
  rw [assignGenerators_eq, assignGenerators_eq]

theorem lastType_mem (fields : List Field) (cn t : String) (h : lastType fields cn = some t) :
    ∃ g ∈ fields, g.ColName = cn ∧ g.Typ = t := by
  induction fields with
  | nil => simp [lastType] at h
  | cons f fs ih =>
    simp only [lastType] at h
    cases hl : lastType fs cn with
    | some t2 =>
      rw [hl] at h
      obtain rfl : t2 = t := by simpa using h
      obtain ⟨g, hg, h1, h2⟩ := ih hl
      exact ⟨g, List.mem_cons_of_mem _ hg, h1, h2⟩
    | none =>
      rw [hl] at h
      by_cases hc : f.ColName = cn
      · simp only [hc, if_true] at h
        exact ⟨f, List.mem_cons_self _ _, hc, by simpa using h⟩
      · simp [hc] at h

theorem lastType_isSome (fields : List Field) (cn : String) (h : cn ∈ columnNames fields) :
    ∃ t, lastType fields cn = some t := by
  induction fields with
  | nil => simp [columnNames] at h
  | cons f fs ih =>
    simp only [lastType]
    cases hl : lastType fs cn with
    | some t2 => exact ⟨t2, rfl⟩
    | none =>
      by_cases hc : f.ColName = cn
      · exact ⟨f.Typ, by simp [hc]⟩
      · have : cn ∈ columnNames fs := by
          simp only [columnNames, List.map_cons, List.mem_cons] at h
          rcases h with h | h
          · exact absurd h.symm hc
          · exact h
        obtain ⟨t, ht⟩ := ih this
        rw [ht] at hl
        cases hl

theorem lastType_none (fields : List Field) (cn : String) (h : cn ∉ columnNames fields) :
    lastType fields cn = none := by
  cases hl : lastType fields cn with
  | none => rfl
  | some t =>
    obtain ⟨g, hg, h1, _⟩ := lastType_mem fields cn t hl
    exact absurd (h1 ▸ List.mem_map_of_mem Field.ColName hg) h

theorem lastType_append_last (pre post : List Field) (f : Field)
    (h : ∀ g ∈ post, g.ColName ≠ f.ColName) :
    lastType (pre ++ f :: post) f.ColName = some f.Typ := by
  have hpost : lastType post f.ColName = none := by
    apply lastType_none
    intro hm
    obtain ⟨g, hg, hgc⟩ := List.mem_map.mp hm
    exact h g hg hgc
  induction pre with
  | nil => simp [lastType, hpost]
  | cons p ps ih => simp [lastType, ih]

theorem mapGet_foldl_assign (loc : Int → Int) (fields : List Field) (cn : String) :
    ∀ gm : GoMap Generator,
    mapGet (fields.foldl (fun g f => mapSet g f.ColName (generatorFor loc f.Typ)) gm) cn =
      match lastType fields cn with
      | some t => some (generatorFor loc t)
      | none => mapGet gm cn := by
  induction fields with
  | nil => intro gm; simp [lastType]
  | cons f fs ih =>
    intro gm
    simp only [List.foldl_cons, lastType]
    rw [ih]
    cases hl : lastType fs cn with
    | some t2 => rfl
    | none =>
      simp only [mapGet_mapSet]
      by_cases hc : f.ColName = cn
      · simp [hc]
      · simp [hc]

/-- The generator map built for a report holds, under each declared column name, the
generator of the last field declared with that name, and nothing else. -/
theorem mapGet_assign (loc : Int → Int) (fields : List Field) (log : List String)
    (cn : String) :
    mapGet (assignGenerators loc fields [] log).1 cn =
      (lastType fields cn).map (generatorFor loc) := by
  rw [assignGenerators_eq]
  simp only
  rw [mapGet_foldl_assign]
  cases lastType fields cn <;> simp [mapGet]

/-! ## Generators never panic and produce encodable values -/

theorem generatorFor_total (loc : Int → Int) (t : String) (r : Rand) :
    ∃ v r1, generatorFor loc t r = some (v, r1) ∧ v ≠ Value.unsupported := by
  by_cases hk : knownType t = true
  · simp only [knownType, Bool.or_eq_true, decide_eq_true_eq] at hk
    rcases hk with ((((h | h) | h) | h) | h) | h <;> subst h
    · obtain ⟨⟨d, s, r1, _, _, hg, _⟩, _⟩ := string_generator_shape r
      exact ⟨Value.str s, r1, hg, by simp⟩
    · exact ⟨_, _, rfl, by simp⟩
    · exact ⟨_, _, rfl, by simp⟩
    · exact ⟨_, _, rfl, by simp⟩
    · exact ⟨_, _, datetime_generate loc r, by simp⟩
    · exact ⟨_, _, rfl, by simp⟩
  · have hk1 : knownType t = false := by simpa using hk
    rw [generatorFor_unknown loc t hk1]
    exact ⟨Value.str "", r, rfl, by simp⟩

/-! ## One data row -/

theorem genRow_append (gm : GoMap Generator) (a b : List Field) :
    ∀ (dr : Row) (r : Rand),
    genRow gm (a ++ b) dr r =
      match genRow gm a dr r with
      | none => none
      | some (dr1, r1) => genRow gm b dr1 r1 := by
  induction a with
  | nil => intro dr r; simp [genRow]
  | cons f fs ih =>
    intro dr r
    simp only [List.cons_append, genRow]
    cases hg : mapGet gm f.ColName with
    | none => exact ih dr r
    | some g =>
      simp only
      cases hv : g r with
      | none => rfl
      | some vr => exact ih _ _

theorem genRow_get_of_not_mem (gm : GoMap Generator) (cn : String) (fields : List Field)
    (h : cn ∉ columnNames fields) :
    ∀ (dr : Row) (r : Rand) (dr1 : Row) (r1 : Rand),
    genRow gm fields dr r = some (dr1, r1) → mapGet dr1 cn = mapGet dr cn := by
  induction fields with
  | nil =>
    intro dr r dr1 r1 hres
    simp only [genRow, Option.some.injEq, Prod.mk.injEq] at hres
    rw [← hres.1]
  | cons f fs ih =>
    intro dr r dr1 r1 hres
    simp only [columnNames, List.map_cons, List.mem_cons, not_or] at h
    have hfs : cn ∉ columnNames fs := h.2
    simp only [genRow] at hres
    cases hg : mapGet gm f.ColName with
    | none =>
      rw [hg] at hres
      exact ih hfs dr r dr1 r1 hres
    | some g =>
      rw [hg] at hres
      simp only at hres
      cases hv : g r with
      | none => rw [hv] at hres; cases hres
      | some vr =>
        rw [hv] at hres
        simp only at hres
        rw [ih hfs _ _ dr1 r1 hres, mapGet_mapSet]
        have : ¬ f.ColName = cn := fun e => h.1 e.symm
        simp [this]

theorem mem_mapSet_snd (dr : Row) (k : String) (v : Value) (e : String × Value)
    (h : e ∈ mapSet dr k v) : e.2 = v ∨ e ∈ dr := by
  induction dr with
  | nil =>
    simp only [mapSet, List.mem_singleton] at h
    exact Or.inl (by rw [h])
  | cons d ds ih =>
    obtain ⟨k1, v1⟩ := d
    by_cases h1 : k1 = k
    · simp only [mapSet, h1, if_true, List.mem_cons] at h
      rcases h with h | h
      · exact Or.inl (by rw [h])
      · exact Or.inr (List.mem_cons_of_mem _ h)
    · simp only [mapSet, h1, if_false, List.mem_cons] at h
      rcases h with h | h
      · exact Or.inr (by rw [h]; exact List.mem_cons_self _ _)
      · rcases ih h with h2 | h2
        · exact Or.inl h2
        · exact Or.inr (List.mem_cons_of_mem _ h2)

theorem mapKeys_mapSet_nodup {α : Type} (m : GoMap α) (k : String) (v : α)
    (h : (mapKeys m).Nodup) : (mapKeys (mapSet m k v)).Nodup := by
  rw [mapKeys_mapSet]
  by_cases hm : k ∈ mapKeys m
  · simp only [hm, if_true]; exact h
  · simp only [hm, if_false]
    exact List.Nodup.append h (List.nodup_singleton k) (by
      intro x hx hx2
      rw [List.mem_singleton] at hx2
      exact hm (hx2 ▸ hx))

theorem mem_mapKeys_mapSet {α : Type} (m : GoMap α) (k : String) (v : α) (x : String) :
    x ∈ mapKeys (mapSet m k v) ↔ x ∈ mapKeys m ∨ x = k := by
  rw [mapKeys_mapSet]
  by_cases hm : k ∈ mapKeys m
  · simp only [hm, if_true]
    constructor
    · intro h; exact Or.inl h
    · rintro (h | h)
      · exact h
      · rw [h]; exact hm
  · simp [hm]

/-- One run of the inner field loop, when every field's column has a generator of the type
switch: it does not panic, the keys of the row become the previous keys together with the
column names, the keys stay distinct, the values stay encodable, and the random source
advances by one generator invocation per field. -/
theorem genRow_spec (loc : Int → Int) (gm : GoMap Generator) (fields : List Field)
    (hgm : ∀ f ∈ fields, ∃ t, mapGet gm f.ColName = some (generatorFor loc t)) :
    ∀ (dr : Row) (r : Rand), (∀ e ∈ dr, e.2 ≠ Value.unsupported) →
    ∃ dr1 r1, genRow gm fields dr r = some (dr1, r1) ∧
      (∀ k, k ∈ mapKeys dr1 ↔ k ∈ mapKeys dr ∨ k ∈ columnNames fields) ∧
      ((mapKeys dr).Nodup → (mapKeys dr1).Nodup) ∧
      ((columnNames fields).Nodup → (∀ k ∈ columnNames fields, k ∉ mapKeys dr) →
        mapKeys dr1 = mapKeys dr ++ columnNames fields) ∧
      (∀ e ∈ dr1, e.2 ≠ Value.unsupported) ∧
      runAll (fields.filterMap (fun f => mapGet gm f.ColName)) r = some r1 := by
  induction fields with
  | nil =>
    intro dr r hdr
    exact ⟨dr, r, rfl, by simp [columnNames], fun h => h, by simp [columnNames], hdr, rfl⟩
  | cons f fs ih =>
    intro dr r hdr
    obtain ⟨t, ht⟩ := hgm f (List.mem_cons_self _ _)
    obtain ⟨v, r0, hv, hsup⟩ := generatorFor_total loc t r
    have hdr0 : ∀ e ∈ mapSet dr f.ColName v, e.2 ≠ Value.unsupported := by
      intro e he
      rcases mem_mapSet_snd dr f.ColName v e he with h | h
      · rw [h]; exact hsup
      · exact hdr e h
    obtain ⟨dr1, r1, hrow, hmem, hnd, heq, hval, hrun⟩ :=
      ih (fun g hg => hgm g (List.mem_cons_of_mem _ hg)) (mapSet dr f.ColName v) r0 hdr0
    refine ⟨dr1, r1, ?_, ?_, ?_, ?_, hval, ?_⟩
    · simp only [genRow, ht, hv, hrow]
    · intro k
      rw [hmem k, mem_mapKeys_mapSet]
      simp only [columnNames, List.map_cons, List.mem_cons]
      tauto
    · intro h
      exact hnd (mapKeys_mapSet_nodup dr f.ColName v h)
    · intro hnodup hdisj
      simp only [columnNames, List.map_cons, List.nodup_cons] at hnodup
      have hf : f.ColName ∉ mapKeys dr := hdisj f.ColName (by simp [columnNames])
      have hk : mapKeys (mapSet dr f.ColName v) = mapKeys dr ++ [f.ColName] := by
        rw [mapKeys_mapSet]; simp [hf]
      rw [heq hnodup.2 (by
        intro k hk2
        rw [mem_mapKeys_mapSet]
        rintro (h | h)
        · exact hdisj k (by simp only [columnNames, List.map_cons, List.mem_cons]
                            exact Or.inr hk2) h
        · exact hnodup.1 (h ▸ hk2)), hk]
      simp [columnNames]
    · simp only [List.filterMap_cons, ht, runAll, hv, hrun]

/-! ## Serialization never fails on encodable rows -/

theorem mem_insertEntry (e x : String × Value) (es : List (String × Value))
    (h : x ∈ insertEntry e es) : x = e ∨ x ∈ es := by
  induction es with
  | nil =>
    simp only [insertEntry, List.mem_singleton] at h
    exact Or.inl h
  | cons e1 es ih =>
    simp only [insertEntry] at h
    split at h
    · simp only [List.mem_cons] at h
      rcases h with h | h | h
      · exact Or.inl h
      · exact Or.inr (h ▸ List.mem_cons_self _ _)
      · exact Or.inr (List.mem_cons_of_mem _ h)
    · simp only [List.mem_cons] at h
      rcases h with h | h
      · exact Or.inr (h ▸ List.mem_cons_self _ _)
      · rcases ih h with h2 | h2
        · exact Or.inl h2
        · exact Or.inr (List.mem_cons_of_mem _ h2)

theorem mem_sortEntries (x : String × Value) (es : List (String × Value))
    (h : x ∈ sortEntries es) : x ∈ es := by
  induction es with
  | nil => simp [sortEntries] at h
  | cons e es ih =>
    simp only [sortEntries] at h
    rcases mem_insertEntry e x _ h with h2 | h2
    · exact h2 ▸ List.mem_cons_self _ _
    · exact List.mem_cons_of_mem _ (ih h2)

theorem jsonValue_ok (v : Value) (h : v ≠ Value.unsupported) : ∃ s, jsonValue v = Except.ok s := by
  cases v with
  | str s => exact ⟨_, rfl⟩
  | int32 n => exact ⟨_, rfl⟩
  | int64 n => exact ⟨_, rfl⟩
  | bool b => exact ⟨_, rfl⟩
  | unsupported => exact absurd rfl h

theorem jsonMembers_ok (es : List (String × Value))
    (h : ∀ e ∈ es, e.2 ≠ Value.unsupported) : ∃ ms, jsonMembers es = Except.ok ms := by
  induction es with
  | nil => exact ⟨[], rfl⟩
  | cons e es ih =>
    obtain ⟨k, v⟩ := e
    obtain ⟨sv, hsv⟩ := jsonValue_ok v (h (k, v) (List.mem_cons_self _ _))
    obtain ⟨ms, hms⟩ := ih (fun e he => h e (List.mem_cons_of_mem _ he))
    exact ⟨(jsonString k ++ ":" ++ sv) :: ms, by simp only [jsonMembers, hsv, hms]⟩

theorem jsonMarshal_ok (dr : Row) (h : ∀ e ∈ dr, e.2 ≠ Value.unsupported) :
    jsonMarshal dr = Except.ok (serialized dr) := by
  obtain ⟨ms, hms⟩ := jsonMembers_ok (sortEntries dr)
    (fun e he => h e (mem_sortEntries e dr he))
  have hm : jsonMarshal dr = Except.ok ("\x7b" ++ ",".intercalate ms ++ "\x7d") := by
    simp only [jsonMarshal, hms]
  simp only [serialized, hm]

/-! ## The row loop -/

/-- The row loop, when every field's column has a generator of the type switch: it runs to
the end, logs nothing, and writes every row it builds, each followed by a newline. -/
theorem rowLoop_spec (loc : Int → Int) (gm : GoMap Generator) (fields : List Field)
    (hgm : ∀ f ∈ fields, ∃ t, mapGet gm f.ColName = some (generatorFor loc t)) (n : Nat) :
    ∀ st : Proc, ∃ st1, rowLoop gm fields n st = some st1 ∧
      st1.log = st.log ∧
      st1.out = st.out ++ rowLines ((rowsOf gm fields n st.rand).map serialized) ∧
      (rowsOf gm fields n st.rand).length = n := by
  induction n with
  | zero =>
    intro st
    exact ⟨st, rfl, rfl, by simp [rowsOf, rowLines], rfl⟩
  | succ n ih =>
    intro st
    obtain ⟨dr, r1, hrow, _, _, _, hval, _⟩ :=
      genRow_spec loc gm fields hgm [] st.rand (by simp)
    have hm := jsonMarshal_ok dr hval
    obtain ⟨st1, hloop, hlog, hout, hlen⟩ :=
      ih { st with rand := r1, out := st.out ++ serialized dr ++ "\n" }
    refine ⟨st1, ?_, ?_, ?_, ?_⟩
    · simp only [rowLoop, hrow, hm, hloop]
    · rw [hlog]
    · rw [hout]
      simp only [rowsOf, hrow, List.map_cons, rowLines, String.append_assoc]
    · simp only [rowsOf, hrow, List.length_cons]
      simp only at hlen
      rw [hlen]

theorem rowsOf_mem (gm : GoMap Generator) (fields : List Field) (n : Nat) :
    ∀ (r : Rand) (dr : Row), dr ∈ rowsOf gm fields n r →
      ∃ r0 r1, genRow gm fields [] r0 = some (dr, r1) := by
  induction n with
  | zero => intro r dr h; simp [rowsOf] at h
  | succ n ih =>
    intro r dr h
    simp only [rowsOf] at h
    cases hg : genRow gm fields [] r with
    | none => rw [hg] at h; simp at h
    | some p =>
      obtain ⟨d0, r0⟩ := p
      rw [hg] at h
      simp only [List.mem_cons] at h
      rcases h with h | h
      · exact ⟨r, r0, by rw [hg, h]⟩
      · exact ih r0 dr h

/-! ## The whole of `processReport` -/

theorem assign_has_generators (loc : Int → Int) (fields : List Field) (log : List String) :
    ∀ f ∈ fields, ∃ t, mapGet (assignGenerators loc fields [] log).1 f.ColName
      = some (generatorFor loc t) := by
  intro f hf
  obtain ⟨t, ht⟩ := lastType_isSome fields f.ColName (List.mem_map_of_mem Field.ColName hf)
  exact ⟨t, by rw [mapGet_assign, ht]; rfl⟩

/-- What `processReport` does, for every report, row count and starting state: it returns,
logs the report name and one warning per field of unrecognised type, and writes the header,
every generated row on a line of its own, and the footer. -/
theorem processReport_spec (loc : Int → Int) (rep : Report) (order : Int) (st : Proc) :
    ∃ st1, processReport loc rep order st = some st1 ∧
      st1.log = st.log ++ ("Report Name:" ++ rep.Name) ::
        (rep.Fields.filter (fun f => !knownType f.Typ)).map (fun f => warningOf f.Typ) ∧
      st1.out = st.out ++ ("\x7b\n" ++ ("\"" ++ rep.Name ++ "s\":[\n") ++
        rowLines ((rowsOf (assignGenerators loc rep.Fields [] []).1 rep.Fields order.toNat
          st.rand).map serialized) ++ "]\n\x7d\n") ∧
      (rowsOf (assignGenerators loc rep.Fields [] []).1 rep.Fields order.toNat
        st.rand).length = order.toNat := by
  have hfst : (assignGenerators loc rep.Fields [] (st.log ++ ["Report Name:" ++ rep.Name])).1
      = (assignGenerators loc rep.Fields [] []).1 := assignGenerators_fst loc _ _ _ _
  have hsnd : (assignGenerators loc rep.Fields [] (st.log ++ ["Report Name:" ++ rep.Name])).2
      = st.log ++ ("Report Name:" ++ rep.Name) ::
        (rep.Fields.filter (fun f => !knownType f.Typ)).map (fun f => warningOf f.Typ) := by
    rw [assignGenerators_eq]
    simp
  obtain ⟨st1, hloop, hlog, hout, hlen⟩ :=
    rowLoop_spec loc (assignGenerators loc rep.Fields [] []).1 rep.Fields
      (assign_has_generators loc rep.Fields []) order.toNat
      { rand := st.rand,
        log := (assignGenerators loc rep.Fields []
          (st.log ++ ["Report Name:" ++ rep.Name])).2,
        out := st.out ++ "\x7b\n" ++ ("\"" ++ rep.Name ++ "s\":[\n") }
  refine ⟨{ st1 with out := st1.out ++ "]\n\x7d\n" }, ?_, ?_, ?_, hlen⟩
  · simp only [processReport, hfst, hloop]
  · simp only [hlog, hsnd]
  · simp only [hout, String.append_assoc]

/-! ## Warnings -/

theorem isWarning_warningOf (t : String) : isWarning (warningOf t) = true := by
  simp only [isWarning, warningOf, String.data_append]
  rw [List.isPrefixOf_iff_prefix]
  exact List.prefix_append _ _

theorem isWarning_reportName (name : String) : isWarning ("Report Name:" ++ name) = false := by
  have h : "Report Name:".data = 'R' :: "eport Name:".data := by decide
  have h2 : "Warning: no operator for type:".data
      = 'W' :: "arning: no operator for type:".data := by decide
  simp only [isWarning, String.data_append, h, h2, List.cons_append, List.isPrefixOf]
  simp

theorem filter_isWarning_warnings (fields : List Field) :
    (fields.map (fun f => warningOf f.Typ)).filter isWarning
      = fields.map (fun f => warningOf f.Typ) := by
  rw [List.filter_eq_self]
  intro s hs
  obtain ⟨f, _, rfl⟩ := List.mem_map.mp hs
  exact isWarning_warningOf f.Typ

/-- C7: for every report, row count and starting state, `processReport` logs the report name
and then exactly one warning per field of unrecognised type, in field order: the number of
warnings is the number of such fields, the log is the same whatever the row count (zero
included), and a report with a single field of unrecognised type logs a single warning. -/
theorem warnings_once_per_field (loc : Int → Int) (rep : Report) (order : Int) (st : Proc) :
    ∃ st1, processReport loc rep order st = some st1 ∧
      st1.log = st.log ++ ("Report Name:" ++ rep.Name) ::
        (rep.Fields.filter (fun f => !knownType f.Typ)).map (fun f => warningOf f.Typ) ∧
      ((st1.log.drop st.log.length).filter isWarning).length
        = (rep.Fields.filter (fun f => !knownType f.Typ)).length ∧
      (∀ (order2 : Int) (st2 : Proc), processReport loc rep order2 st = some st2 →
        st2.log = st1.log) ∧
      (∀ f, rep.Fields.filter (fun f => !knownType f.Typ) = [f] →
        (st1.log.drop st.log.length).filter isWarning = [warningOf f.Typ]) := by
  obtain ⟨st1, hrun, hlog, _, _⟩ := processReport_spec loc rep order st
  have hdrop : st1.log.drop st.log.length = ("Report Name:" ++ rep.Name) ::
      (rep.Fields.filter (fun f => !knownType f.Typ)).map (fun f => warningOf f.Typ) := by
    rw [hlog, List.drop_left]
  have hfil : (st1.log.drop st.log.length).filter isWarning
      = (rep.Fields.filter (fun f => !knownType f.Typ)).map (fun f => warningOf f.Typ) := by
    rw [hdrop, List.filter_cons_of_neg (by simp [isWarning_reportName]),
      filter_isWarning_warnings]
  refine ⟨st1, hrun, hlog, ?_, ?_, ?_⟩
  · rw [hfil, List.length_map]
  · intro order2 st2 h2
    obtain ⟨st3, hrun3, hlog3, _, _⟩ := processReport_spec loc rep order2 st
    rw [hrun3] at h2
    cases h2
    rw [hlog3, hlog]
  · intro f hf
    rw [hfil, hf]
    rfl

/-! ## Emitted rows -/

/-- Every row built for a report is one run of the field loop from the empty row; it is
encodable, its keys are exactly the declared column names, without repetition, and when
the declared names are distinct they are the keys, one per field. -/
theorem rows_spec (loc : Int → Int) (fields : List Field) (n : Nat) (r : Rand) (dr : Row)
    (h : dr ∈ rowsOf (assignGenerators loc fields [] []).1 fields n r) :
    jsonMarshal dr = Except.ok (serialized dr) ∧
    (∀ k, k ∈ mapKeys dr ↔ k ∈ columnNames fields) ∧
    (mapKeys dr).Nodup ∧
    ((columnNames fields).Nodup → mapKeys dr = columnNames fields) := by
  obtain ⟨r0, r1, hrow⟩ := rowsOf_mem _ fields n r dr h
  obtain ⟨dr1, r2, hrow1, hmem, hnd, heq, hval, _⟩ :=
    genRow_spec loc _ fields (assign_has_generators loc fields []) [] r0 (by simp)
  rw [hrow] at hrow1
  simp only [Option.some.injEq, Prod.mk.injEq] at hrow1
  obtain ⟨rfl, rfl⟩ := hrow1
  refine ⟨jsonMarshal_ok dr hval, ?_, ?_, ?_⟩
  · intro k
    rw [hmem k]
    simp [mapKeys]
  · exact hnd (by simp [mapKeys])
  · intro hn
    rw [heq hn (by simp [mapKeys])]
    simp [mapKeys]

theorem header_eq (name : String) :
    "\"" ++ name ++ "s\":[\n" = "\"" ++ name ++ "s" ++ "\":[\n" := by
  rw [String.append_assoc ("\"" ++ name) "s" "\":[\n"]
  rfl

/-- C2: for every report, row count and starting state, `processReport` returns and the
bytes it writes are the line of the opening brace, a double quote, the report name, the
letter `s` and `":[` with a newline, then every serialized row followed by one newline,
then the closing bracket and brace lines; rows are `order` many (none when `order <= 0`,
when the output is the header directly followed by the footer); `user` gives the key
`users` and `Person` gives `Persons`. -/
theorem output_bytes (loc : Int → Int) (rep : Report) (order : Int) (st : Proc) :
    ∃ st1, processReport loc rep order st = some st1 ∧
      st1.out = st.out ++ ("\x7b\n" ++ ("\"" ++ rep.Name ++ "s" ++ "\":[\n") ++
        rowLines ((rowsOf (assignGenerators loc rep.Fields [] []).1 rep.Fields order.toNat
          st.rand).map serialized) ++ "]\n\x7d\n") ∧
      (∀ dr ∈ rowsOf (assignGenerators loc rep.Fields [] []).1 rep.Fields order.toNat st.rand,
        jsonMarshal dr = Except.ok (serialized dr)) ∧
      (rowsOf (assignGenerators loc rep.Fields [] []).1 rep.Fields order.toNat
        st.rand).length = order.toNat ∧
      (order ≤ 0 → st1.out = st.out ++ ("\x7b\n" ++ ("\"" ++ rep.Name ++ "s" ++ "\":[\n") ++
        "]\n\x7d\n")) ∧
      (rep.Name = "user" → "\"" ++ rep.Name ++ "s" ++ "\":[\n" = "\"users\":[\n") ∧
      (rep.Name = "Person" → "\"" ++ rep.Name ++ "s" ++ "\":[\n" = "\"Persons\":[\n") := by
  obtain ⟨st1, hrun, _, hout, hlen⟩ := processReport_spec loc rep order st
  rw [header_eq] at hout
  refine ⟨st1, hrun, hout, ?_, hlen, ?_, ?_, ?_⟩
  · intro dr hdr
    exact (rows_spec loc rep.Fields _ _ dr hdr).1
  · intro ho
    have h0 : order.toNat = 0 := by omega
    rw [hout, h0]
    simp only [rowsOf, List.map_nil, rowLines, String.append_empty]
  · intro hn; rw [hn]; decide
  · intro hn; rw [hn]; decide

/-- C1: for every report whose declared column names are pairwise distinct and every row
count `order >= 0`, `processReport` returns, builds and writes exactly `order` rows (each
serialized without error, each on a line of its own), logs no serialization error, and the
keys of every row are exactly the declared column names, one key per declared field. -/
theorem rows_and_keys (loc : Int → Int) (rep : Report) (order : Int) (st : Proc)
    (hd : (columnNames rep.Fields).Nodup) (ho : 0 ≤ order) :
    ∃ st1, processReport loc rep order st = some st1 ∧
      ((rowsOf (assignGenerators loc rep.Fields [] []).1 rep.Fields order.toNat
        st.rand).length : Int) = order ∧
      st1.out = st.out ++ ("\x7b\n" ++ ("\"" ++ rep.Name ++ "s\":[\n") ++
        rowLines ((rowsOf (assignGenerators loc rep.Fields [] []).1 rep.Fields order.toNat
          st.rand).map serialized) ++ "]\n\x7d\n") ∧
      st1.log = st.log ++ ("Report Name:" ++ rep.Name) ::
        (rep.Fields.filter (fun f => !knownType f.Typ)).map (fun f => warningOf f.Typ) ∧
      (∀ dr ∈ rowsOf (assignGenerators loc rep.Fields [] []).1 rep.Fields order.toNat st.rand,
        jsonMarshal dr = Except.ok (serialized dr) ∧
        mapKeys dr = columnNames rep.Fields ∧
        (∀ k, k ∈ mapKeys dr ↔ k ∈ columnNames rep.Fields) ∧
        (mapKeys dr).Nodup ∧
        (mapKeys dr).length = rep.Fields.length) := by
  obtain ⟨st1, hrun, hlog, hout, hlen⟩ := processReport_spec loc rep order st
  refine ⟨st1, hrun, ?_, hout, hlog, ?_⟩
  · rw [hlen]; omega
  · intro dr hdr
    obtain ⟨hm, hmem, hnd, heq⟩ := rows_spec loc rep.Fields _ _ dr hdr
    refine ⟨hm, heq hd, hmem, hnd, ?_⟩
    rw [heq hd]
    simp [columnNames]

/-- Witness of C1: the `Widget` report of the specification with two rows. -/
theorem rows_and_keys_witness :
    (columnNames widget.Fields).Nodup ∧ (0 : Int) ≤ 2 ∧
    ∃ st1, processReport (fun _ => 0) widget 2 ⟨⟨fun n => 7 * n + 3, 0⟩, [], ""⟩ = some st1 ∧
      ((rowsOf (assignGenerators (fun _ => 0) widget.Fields [] []).1 widget.Fields
        (2 : Int).toNat (Proc.rand ⟨⟨fun n => 7 * n + 3, 0⟩, [], ""⟩)).length : Int) = 2 ∧
      st1.out = Proc.out ⟨⟨fun n => 7 * n + 3, 0⟩, [], ""⟩ ++
        ("\x7b\n" ++ ("\"" ++ widget.Name ++ "s\":[\n") ++
        rowLines ((rowsOf (assignGenerators (fun _ => 0) widget.Fields [] []).1 widget.Fields
          (2 : Int).toNat (Proc.rand ⟨⟨fun n => 7 * n + 3, 0⟩, [], ""⟩)).map serialized)
        ++ "]\n\x7d\n") ∧
      st1.log = Proc.log ⟨⟨fun n => 7 * n + 3, 0⟩, [], ""⟩ ++
        ("Report Name:" ++ widget.Name) ::
        (widget.Fields.filter (fun f => !knownType f.Typ)).map (fun f => warningOf f.Typ) ∧
      (∀ dr ∈ rowsOf (assignGenerators (fun _ => 0) widget.Fields [] []).1 widget.Fields
          (2 : Int).toNat (Proc.rand ⟨⟨fun n => 7 * n + 3, 0⟩, [], ""⟩),
        jsonMarshal dr = Except.ok (serialized dr) ∧
        mapKeys dr = columnNames widget.Fields ∧
        (∀ k, k ∈ mapKeys dr ↔ k ∈ columnNames widget.Fields) ∧
        (mapKeys dr).Nodup ∧
        (mapKeys dr).length = widget.Fields.length) :=
  ⟨by decide, by decide,
    rows_and_keys (fun _ => 0) widget 2 ⟨⟨fun n => 7 * n + 3, 0⟩, [], ""⟩ (by decide)
      (by decide)⟩

/-! ## The end-to-end `Widget` input -/

theorem widget_log (loc : Int → Int) (order : Int) (st : Proc) :
    ∃ st1, processReport loc widget order st = some st1 ∧
      st1.log = st.log ++ ["Report Name:Widget", "Warning: no operator for type:enum"] := by
  obtain ⟨st1, hrun, hlog, _, _⟩ := processReport_spec loc widget order st
  refine ⟨st1, hrun, ?_⟩
  rw [hlog]
  have h : ("Report Name:" ++ widget.Name) ::
      (widget.Fields.filter (fun f => !knownType f.Typ)).map (fun f => warningOf f.Typ)
      = ["Report Name:Widget", "Warning: no operator for type:enum"] := by decide
  rw [h]

/-- C6 as stated fails: on the `Widget` input with row count 2 (UTC, a fixed random source,
empty log) the warning naming type `enum` is not logged twice. -/
theorem widget_warning_not_twice :
    ¬ ∃ st1, processReport (fun _ => 0) widget 2 ⟨⟨fun n => 7 * n + 3, 0⟩, [], ""⟩ = some st1 ∧
      st1.log.count "Warning: no operator for type:enum" = 2 := by
  rintro ⟨st1, hrun, hcount⟩
  obtain ⟨st2, hrun2, hlog⟩ := widget_log (fun _ => 0) 2 ⟨⟨fun n => 7 * n + 3, 0⟩, [], ""⟩
  rw [hrun] at hrun2
  cases hrun2
  rw [hlog] at hcount
  revert hcount
  decide

/-- C6 amended: on the `Widget` input with row count 2, whatever the time zone and the
starting state, `processReport` logs the report name and then the warning naming type `enum`
exactly once (once for the one field of unrecognised type, not once per row). -/
theorem widget_warning_once (loc : Int → Int) (st : Proc) :
    ∃ st1, processReport loc widget 2 st = some st1 ∧
      st1.log = st.log ++ ["Report Name:Widget", "Warning: no operator for type:enum"] ∧
      (st1.log.drop st.log.length).count "Warning: no operator for type:enum" = 1 ∧
      ((st1.log.drop st.log.length).filter isWarning).length = 1 := by
  obtain ⟨st1, hrun, hlog⟩ := widget_log loc 2 st
  refine ⟨st1, hrun, hlog, ?_, ?_⟩
  · rw [hlog, List.drop_left]
    decide
  · rw [hlog, List.drop_left]
    decide

/-! ## Fields of unrecognised type -/

theorem lastType_append (a b : List Field) (cn : String) :
    lastType (a ++ b) cn =
      match lastType b cn with
      | some t => some t
      | none => lastType a cn := by
  induction a with
  | nil =>
    simp only [List.nil_append]
    cases hb : lastType b cn <;> simp [lastType]
  | cons f fs ih =>
    show (match lastType (fs ++ b) cn with
      | some t => some t
      | none => if f.ColName = cn then some f.Typ else none) = _
    rw [ih]
    cases lastType b cn <;> rfl

theorem genRow_noop (gm : GoMap Generator) (cn : String)
    (hcn : mapGet gm cn = some NoOpGenerator) (fields : List Field) :
    ∀ (dr : Row) (r : Rand) (dr1 : Row) (r1 : Rand),
    genRow gm fields dr r = some (dr1, r1) →
    (cn ∈ columnNames fields ∨ mapGet dr cn = some (Value.str "")) →
    mapGet dr1 cn = some (Value.str "") := by
  induction fields with
  | nil =>
    intro dr r dr1 r1 hres h
    simp only [genRow, Option.some.injEq, Prod.mk.injEq] at hres
    rcases h with h | h
    · simp [columnNames] at h
    · rw [← hres.1]; exact h
  | cons f fs ih =>
    intro dr r dr1 r1 hres h
    simp only [genRow] at hres
    by_cases hc : f.ColName = cn
    · rw [hc, hcn] at hres
      simp only [NoOpGenerator] at hres
      exact ih _ _ dr1 r1 hres (Or.inr (by rw [mapGet_mapSet]; simp))
    · have h2 : cn ∈ columnNames fs ∨ mapGet dr cn = some (Value.str "") := by
        rcases h with h | h
        · simp only [columnNames, List.map_cons, List.mem_cons] at h
          rcases h with h | h
          · exact absurd h.symm hc
          · exact Or.inl h
        · exact Or.inr h
      cases hg : mapGet gm f.ColName with
      | none =>
        rw [hg] at hres
        exact ih dr r dr1 r1 hres h2
      | some g =>
        rw [hg] at hres
        simp only at hres
        cases hv : g r with
        | none => rw [hv] at hres; cases hres
        | some vr =>
          rw [hv] at hres
          simp only at hres
          refine ih _ _ dr1 r1 hres ?_
          rcases h2 with h3 | h3
          · exact Or.inl h3
          · exact Or.inr (by rw [mapGet_mapSet]; simp [hc, h3])

/-- C5 as stated fails: with fields `a:enum` then `a:int` and one row (UTC, random source
whose outputs are all 5), the field of unrecognised type `enum` has the column name `a`,
and the emitted row holds the integer 5 under `a`, not the empty string. -/
theorem unknown_type_overwritten :
    knownType "enum" = false ∧
    (processReport (fun _ => 0) ⟨"T", "", [], [⟨"a", "enum", ""⟩, ⟨"a", "int", ""⟩]⟩ 1
      ⟨⟨fun _ => 5, 0⟩, [], ""⟩).map Proc.out = some "\x7b\n\"Ts\":[\n\x7b\"a\":5\x7d\n]\n\x7d\n" ∧
    rowsOf (assignGenerators (fun _ => 0) [⟨"a", "enum", ""⟩, ⟨"a", "int", ""⟩] [] []).1
      [⟨"a", "enum", ""⟩, ⟨"a", "int", ""⟩] 1 ⟨fun _ => 5, 0⟩ = [[("a", Value.int32 5)]] ∧
    ¬ (∀ dr ∈ rowsOf (assignGenerators (fun _ => 0)
        [⟨"a", "enum", ""⟩, ⟨"a", "int", ""⟩] [] []).1
        [⟨"a", "enum", ""⟩, ⟨"a", "int", ""⟩] 1 ⟨fun _ => 5, 0⟩,
      mapGet dr "a" = some (Value.str "")) := by
  refine ⟨by decide, by decide, by decide, by decide⟩

/-- C5 amended: for every report, row count and starting state, and every field of
unrecognised type such that every field declared after it with the same column name also
has an unrecognised type, `processReport` returns (generation is not aborted), builds
`order` rows, and every row has that field's column name as a key, with the empty string as
its value. -/
theorem unknown_type_empty_string (loc : Int → Int) (rep : Report) (order : Int) (st : Proc)
    (pre post : List Field) (f : Field) (hsplit : rep.Fields = pre ++ f :: post)
    (hf : knownType f.Typ = false)
    (hpost : ∀ g ∈ post, g.ColName = f.ColName → knownType g.Typ = false) :
    ∃ st1, processReport loc rep order st = some st1 ∧
      (rowsOf (assignGenerators loc rep.Fields [] []).1 rep.Fields order.toNat
        st.rand).length = order.toNat ∧
      ∀ dr ∈ rowsOf (assignGenerators loc rep.Fields [] []).1 rep.Fields order.toNat st.rand,
        f.ColName ∈ mapKeys dr ∧ mapGet dr f.ColName = some (Value.str "") := by
  obtain ⟨st1, hrun, _, _, hlen⟩ := processReport_spec loc rep order st
  have hmemf : f.ColName ∈ columnNames rep.Fields := by
    rw [hsplit]; simp [columnNames]
  have hnoop : mapGet (assignGenerators loc rep.Fields [] []).1 f.ColName
      = some NoOpGenerator := by
    rw [mapGet_assign, hsplit, lastType_append]
    cases hl : lastType (f :: post) f.ColName with
    | none =>
      simp only [lastType] at hl
      cases hp : lastType post f.ColName <;> simp [hp] at hl
    | some t =>
      have ht : knownType t = false := by
        simp only [lastType] at hl
        cases hp : lastType post f.ColName with
        | none =>
          simp only [hp, if_true, Option.some.injEq] at hl
          rw [← hl]; exact hf
        | some t2 =>
          simp only [hp, Option.some.injEq] at hl
          obtain ⟨g, hg, hgc, hgt⟩ := lastType_mem post f.ColName t2 hp
          rw [← hl, ← hgt]
          exact hpost g hg hgc
      simp only [Option.map_some', generatorFor_unknown loc t ht]
  refine ⟨st1, hrun, hlen, ?_⟩
  intro dr hdr
  obtain ⟨_, hmem, _, _⟩ := rows_spec loc rep.Fields _ _ dr hdr
  obtain ⟨r0, r1, hrow⟩ := rowsOf_mem _ rep.Fields _ _ dr hdr
  exact ⟨(hmem f.ColName).mpr hmemf,
    genRow_noop _ f.ColName hnoop rep.Fields [] r0 dr r1 hrow (Or.inl hmemf)⟩

/-- Witness of C5 amended: the field `mystery:enum` of the `Widget` report, two rows. -/
theorem unknown_type_empty_string_witness :
    widget.Fields = [⟨"id", "int", ""⟩, ⟨"label", "string", ""⟩, ⟨"flag", "bool", ""⟩]
      ++ (⟨"mystery", "enum", ""⟩ : Field) :: [] ∧
    knownType (Field.Typ ⟨"mystery", "enum", ""⟩) = false ∧
    (∀ g ∈ ([] : List Field), g.ColName = Field.ColName ⟨"mystery", "enum", ""⟩ →
      knownType g.Typ = false) ∧
    ∃ st1, processReport (fun _ => 0) widget 2 ⟨⟨fun n => 7 * n + 3, 0⟩, [], ""⟩ = some st1 ∧
      (rowsOf (assignGenerators (fun _ => 0) widget.Fields [] []).1 widget.Fields
        (2 : Int).toNat (Proc.rand ⟨⟨fun n => 7 * n + 3, 0⟩, [], ""⟩)).length
          = (2 : Int).toNat ∧
      ∀ dr ∈ rowsOf (assignGenerators (fun _ => 0) widget.Fields [] []).1 widget.Fields
          (2 : Int).toNat (Proc.rand ⟨⟨fun n => 7 * n + 3, 0⟩, [], ""⟩),
        Field.ColName ⟨"mystery", "enum", ""⟩ ∈ mapKeys dr ∧
        mapGet dr (Field.ColName ⟨"mystery", "enum", ""⟩) = some (Value.str "") :=
  ⟨by decide, by decide, by simp,
    unknown_type_empty_string (fun _ => 0) widget 2 ⟨⟨fun n => 7 * n + 3, 0⟩, [], ""⟩
      [⟨"id", "int", ""⟩, ⟨"label", "string", ""⟩, ⟨"flag", "bool", ""⟩] []
      ⟨"mystery", "enum", ""⟩ (by decide) (by decide) (by simp)⟩

end Datagen
